import Mathlib

/-!
Verification development for the OpenTradingMT4bot cost-control core:
the key-normalization layer (cache_key_manager.py), the tiered
memory+disk cache (deepseek_utils.py) and the cost ledger / adaptive
request governor (api_usage_tracker.py).

Python strings are modelled as lists of Unicode codepoints
(`List Nat`); the ASCII character classes used by the source's regular
expressions are modelled by decidable predicates on codepoints.
Timestamps (`time.time()` float epoch seconds) and dollar amounts are
modelled as rationals.
-/

namespace Spec2Proof

/-- Convert a Lean string literal to its list of codepoints; used only to
write concrete test inputs and the source's string constants readably. -/
def strCp (s : String) : List Nat := s.data.map Char.toNat

/-! ## KeyCodec: cache_key_manager.py -/

/-- Codepoint of an ASCII uppercase letter (A-Z). -/
def isUpperCp (n : Nat) : Bool := 65 ≤ n && n ≤ 90

/-- Model of Python str.lower for one ASCII codepoint (uppercase letters
map to lowercase, everything else unchanged). -/
def lowerCp (n : Nat) : Nat := if isUpperCp n then n + 32 else n

/-- ASCII whitespace as matched by Python str.strip and the regex class
backslash-s: space, tab, newline, vertical tab, form feed, carriage return. -/
def isSpaceCp (n : Nat) : Bool := n == 32 || n == 9 || n == 10 || n == 11 || n == 12 || n == 13

/-- ASCII word characters, the regex class backslash-w: digits, letters,
underscore. -/
def isWordCp (n : Nat) : Bool :=
  (48 ≤ n && n ≤ 57) || (65 ≤ n && n ≤ 90) || (97 ≤ n && n ≤ 122) || n == 95

/-- Characters kept by INVALID_CHARS_PATTERN = [^ backslash-w - .]:
word characters plus hyphen (45) and dot (46). -/
def isKeyCp (n : Nat) : Bool := isWordCp n || n == 45 || n == 46

/-- Python str.strip with an explicit character predicate: drop the
longest run of matching characters from both ends. -/
def stripWhile (p : Nat → Bool) (l : List Nat) : List Nat :=
  ((l.dropWhile p).reverse.dropWhile p).reverse

/-- re.sub of INVALID_CHARS_PATTERN with a single underscore: every
character outside [backslash-w - .] becomes 95. -/
def subInvalid (l : List Nat) : List Nat :=
  l.map (fun c => if isKeyCp c then c else 95)

/-- Helper for regex run replacement: each maximal run of characters
matching `p` is replaced by the single codepoint `rep`; the boolean flag
records whether the previous character was inside a run. -/
def collapseAux (p : Nat → Bool) (rep : Nat) : Bool → List Nat → List Nat
  | _, [] => []
  | inRun, c :: cs =>
    if p c then
      if inRun then collapseAux p rep true cs
      else rep :: collapseAux p rep true cs
    else c :: collapseAux p rep false cs

/-- re.sub replacing each maximal run of characters matching `p` by the
single codepoint `rep` (models WHITESPACE_PATTERN.sub and
REPEAT_SEPARATORS.sub). -/
def collapseRuns (p : Nat → Bool) (rep : Nat) (l : List Nat) : List Nat :=
  collapseAux p rep false l

/-- CacheKeyManager.normalize_key: lowercase and trim, replace invalid
characters by underscore, collapse whitespace runs to one underscore,
collapse underscore runs, strip leading/trailing underscores. -/
def normalize_key (key : List Nat) : List Nat :=
  let n1 := stripWhile isSpaceCp (key.map lowerCp)
  let n2 := subInvalid n1
  let n3 := collapseRuns isSpaceCp 95 n2
  let n4 := collapseRuns (fun c => c == 95) 95 n3
  stripWhile (fun c => c == 95) n4

/-! ### SHA-256 (model of the hashlib collaborator used by truncate_key)

The source calls hashlib.new('sha256') on the UTF-8 encoding of the
discarded suffix and keeps a slice of the 64-character hex digest.  The
hash is embedded concretely (FIPS 180-4 over byte lists). -/

/-- Right rotation of a 32-bit word. -/
def rotr32 (n x : Nat) : Nat := ((x >>> n) ||| (x <<< (32 - n))) % 4294967296

/-- Addition modulo 2 to the 32. -/
def add32 (x y : Nat) : Nat := (x + y) % 4294967296

/-- SHA-256 round constants (fractional parts of cube roots of the first
64 primes). -/
def shaK : List Nat :=
  [1116352408, 1899447441, 3049323471, 3921009573, 961987163, 1508970993,
   2453635748, 2870763221, 3624381080, 310598401, 607225278, 1426881987,
   1925078388, 2162078206, 2614888103, 3248222580, 3835390401, 4022224774,
   264347078, 604807628, 770255983, 1249150122, 1555081692, 1996064986,
   2554220882, 2821834349, 2952996808, 3210313671, 3336571891, 3584528711,
   113926993, 338241895, 666307205, 773529912, 1294757372, 1396182291,
   1695183700, 1986661051, 2177026350, 2456956037, 2730485921, 2820302411,
   3259730800, 3345764771, 3516065817, 3600352804, 4094571909, 275423344,
   430227734, 506948616, 659060556, 883997877, 958139571, 1322822218,
   1537002063, 1747873779, 1955562222, 2024104815, 2227730452, 2361852424,
   2428436474, 2756734187, 3204031479, 3329325298]

/-- SHA-256 initial hash words. -/
def shaH0 : List Nat :=
  [1779033703, 3144134277, 1013904242, 2773480762,
   1359893119, 2600822924, 528734635, 1541459225]

/-- Big-endian byte decomposition of a value into `k` bytes. -/
def beBytes : Nat → Nat → List Nat
  | 0, _ => []
  | k + 1, v => beBytes k (v / 256) ++ [v % 256]

/-- Group a byte list (length a multiple of 4) into big-endian 32-bit
words. -/
def toWords : List Nat → List Nat
  | b3 :: b2 :: b1 :: b0 :: rest => (((b3 * 256 + b2) * 256 + b1) * 256 + b0) :: toWords rest
  | _ => []

/-- SHA-256 message padding: append 0x80, zero bytes up to 56 mod 64,
then the 64-bit big-endian bit length. -/
def padMessage (msg : List Nat) : List Nat :=
  let L := msg.length
  let k := (119 - (L % 64)) % 64
  msg ++ 128 :: List.replicate k 0 ++ beBytes 8 (L * 8)

/-- SHA-256 small sigma-0. -/
def ssig0 (x : Nat) : Nat := (Nat.xor (Nat.xor (rotr32 7 x) (rotr32 18 x)) (x >>> 3)) % 4294967296

/-- SHA-256 small sigma-1. -/
def ssig1 (x : Nat) : Nat := (Nat.xor (Nat.xor (rotr32 17 x) (rotr32 19 x)) (x >>> 10)) % 4294967296

/-- Extend the 16-word schedule by `k` further words. -/
def extendSchedule : Nat → List Nat → List Nat
  | 0, ws => ws
  | k + 1, ws =>
    let i := ws.length
    let w := (ws.getD (i - 16) 0 + ssig0 (ws.getD (i - 15) 0) +
              ws.getD (i - 7) 0 + ssig1 (ws.getD (i - 2) 0)) % 4294967296
    extendSchedule k (ws ++ [w])

/-- SHA-256 big sigma-0. -/
def bsig0 (x : Nat) : Nat := (Nat.xor (Nat.xor (rotr32 2 x) (rotr32 13 x)) (rotr32 22 x)) % 4294967296

/-- SHA-256 big sigma-1. -/
def bsig1 (x : Nat) : Nat := (Nat.xor (Nat.xor (rotr32 6 x) (rotr32 11 x)) (rotr32 25 x)) % 4294967296

/-- SHA-256 choice function. -/
def chB (e f g : Nat) : Nat := Nat.xor (Nat.land e f) (Nat.land (4294967295 - e) g)

/-- SHA-256 majority function. -/
def majB (a b c : Nat) : Nat := Nat.xor (Nat.xor (Nat.land a b) (Nat.land a c)) (Nat.land b c)

/-- Working state of the 64 compression rounds. -/
structure ShaState where
  a : Nat
  b : Nat
  c : Nat
  d : Nat
  e : Nat
  f : Nat
  g : Nat
  h : Nat

/-- Run the compression rounds over the paired round constants and
schedule words. -/
def shaRounds : List Nat → List Nat → ShaState → ShaState
  | k :: ks, w :: ws, st =>
    let t1 := (st.h + bsig1 st.e + chB st.e st.f st.g + k + w) % 4294967296
    let t2 := (bsig0 st.a + majB st.a st.b st.c) % 4294967296
    shaRounds ks ws ⟨add32 t1 t2, st.a, st.b, st.c, add32 st.d t1, st.e, st.f, st.g⟩
  | _, _, st => st

/-- Compress one 64-byte chunk into the running hash words. -/
def compressChunk (chunk : List Nat) (hs : List Nat) : List Nat :=
  let ws := extendSchedule 48 (toWords chunk)
  let st0 : ShaState :=
    ⟨hs.getD 0 0, hs.getD 1 0, hs.getD 2 0, hs.getD 3 0,
     hs.getD 4 0, hs.getD 5 0, hs.getD 6 0, hs.getD 7 0⟩
  let st := shaRounds shaK ws st0
  [add32 (hs.getD 0 0) st.a, add32 (hs.getD 1 0) st.b,
   add32 (hs.getD 2 0) st.c, add32 (hs.getD 3 0) st.d,
   add32 (hs.getD 4 0) st.e, add32 (hs.getD 5 0) st.f,
   add32 (hs.getD 6 0) st.g, add32 (hs.getD 7 0) st.h]

/-- Process `n` chunks of 64 bytes. -/
def processChunks : Nat → List Nat → List Nat → List Nat
  | 0, _, hs => hs
  | n + 1, bytes, hs => processChunks n (bytes.drop 64) (compressChunk (bytes.take 64) hs)

/-- SHA-256 of a byte list, as the final eight hash words. -/
def sha256Words (msg : List Nat) : List Nat :=
  let padded := padMessage msg
  processChunks (padded.length / 64) padded shaH0

/-- Codepoint of the lowercase hex digit for a nibble. -/
def hexDigitCp (n : Nat) : Nat := if n < 10 then 48 + n else 87 + n

/-- Big-endian hex digits of a value, `k` digits. -/
def hexDigits : Nat → Nat → List Nat
  | 0, _ => []
  | k + 1, v => hexDigits k (v / 16) ++ [hexDigitCp (v % 16)]

/-- Model of hashlib's hexdigest: 64 lowercase hex characters of the
SHA-256 of a byte list. -/
def hexdigest (msg : List Nat) : List Nat :=
  ((sha256Words msg).map (hexDigits 8)).flatten

/-- UTF-8 encoding of one codepoint (models str.encode per character). -/
def utf8Cp (c : Nat) : List Nat :=
  if c < 128 then [c]
  else if c < 2048 then [192 + c / 64, 128 + c % 64]
  else if c < 65536 then [224 + c / 4096, 128 + (c / 64) % 64, 128 + c % 64]
  else [240 + c / 262144, 128 + (c / 4096) % 64, 128 + (c / 64) % 64, 128 + c % 64]

/-- UTF-8 encoding of a codepoint string (models str.encode). -/
def utf8Encode (l : List Nat) : List Nat := (l.map utf8Cp).flatten

/-- Python slice s[:i] including the negative-index convention: a
negative bound counts from the end of the sequence. -/
def pyTake (l : List Nat) (i : Int) : List Nat :=
  if 0 ≤ i then l.take i.toNat else l.take (((l.length : Int) + i).toNat)

/-- Maximum cache key length (MAX_KEY_LENGTH). -/
def MAX_KEY_LENGTH : Nat := 128

/-- CacheKeyManager.truncate_key: keys no longer than the budget are
returned unchanged; longer keys keep a half-budget prefix, an
underscore, and a slice of the hex digest of the discarded suffix. -/
def truncate_key (key : List Nat) (maxLength : Nat) : List Nat :=
  if key.length ≤ maxLength then key
  else
    let prefixLength := maxLength / 2
    let remaining := key.drop prefixLength
    let hashDigest := hexdigest (utf8Encode remaining)
    let digestPart := pyTake hashDigest ((maxLength : Int) - (prefixLength : Int) - 1)
    key.take prefixLength ++ 95 :: digestPart

/-- CACHE_TYPE_DIRS: category tag to storage subdirectory. -/
def CACHE_TYPE_DIRS : List (List Nat × List Nat) :=
  [(strCp ("default"), strCp ("general")),
   (strCp ("chat"), strCp ("conversations")),
   (strCp ("news"), strCp ("news_data")),
   (strCp ("market_analysis"), strCp ("market_analytics")),
   (strCp ("pattern"), strCp ("technical_patterns")),
   (strCp ("portfolio"), strCp ("portfolio_data")),
   (strCp ("scenario"), strCp ("scenario_analysis")),
   (strCp ("seasonal"), strCp ("seasonal_patterns")),
   (strCp ("cot"), strCp ("cot_data")),
   (strCp ("backtest"), strCp ("backtest_results"))]

/-- Lookup in an association list by key (models dict.get). -/
def assocFind {β γ : Type} [BEq β] (m : List (β × γ)) (k : β) : Option γ :=
  (m.find? (fun p => p.1 == k)).map (fun p => p.2)

/-- Dict assignment: overwrite in place when the key is present (keeping
its insertion position, as Python dicts do), otherwise append. -/
def assocInsert {β γ : Type} [BEq β] (m : List (β × γ)) (k : β) (v : γ) : List (β × γ) :=
  if (m.find? (fun p => p.1 == k)).isSome then
    m.map (fun p => if p.1 == k then (k, v) else p)
  else m ++ [(k, v)]

/-- Dict deletion of a key. -/
def assocErase {β γ : Type} [BEq β] (m : List (β × γ)) (k : β) : List (β × γ) :=
  m.filter (fun p => !(p.1 == k))

/-- CacheKeyManager.get_cache_path: path segments (relative to the base
cache directory) of the cache file for a key and category: category
subdirectory, two-character shard, truncated key with the .cache.gz
suffix. -/
def get_cache_path (key cacheType : List Nat) : List (List Nat) :=
  let normalized := normalize_key key
  let truncated := truncate_key normalized MAX_KEY_LENGTH
  let subdirName := (assocFind CACHE_TYPE_DIRS cacheType).getD (strCp ("general"))
  let shardName := if 2 ≤ truncated.length then truncated.take 2 else strCp ("aa")
  [subdirName, shardName, truncated ++ strCp (".cache.gz")]

/-! ## TieredCache: deepseek_utils.py

The payload type is a parameter; a payload value is the JSON data the
source stores, with the Python value None modelled as Option.none (the
category's null-equivalent, skipped by _save_to_cache).  The gzip+json
serialization collaborators are content-faithful (json.load after
json.dump returns the dumped value), so disk files are modelled at
content level with an mtime and a byte size; a file whose content is
Option.none stands for a corrupt or unparseable file. -/

/-- A cache entry: creation instant plus payload. -/
structure CacheEntry (α : Type) where
  timestamp : ℚ
  data : α
deriving DecidableEq, Repr

/-- The in-memory cache MEMORY_CACHE: an insertion-ordered map from the
memory key (category:normalized-key) to entries. -/
abbrev Memory (α : Type) : Type := List (List Nat × CacheEntry α)

/-- An on-disk cache file: modification time, byte size, parsed content
(none when the bytes fail to decompress or parse). -/
structure DiskFile (α : Type) where
  mtime : ℚ
  size : Nat
  content : Option (CacheEntry α)
deriving DecidableEq, Repr

/-- The on-disk store: a map from path segments to files. -/
abbrev Disk (α : Type) : Type := List (List (List Nat) × DiskFile α)

/-- CACHE_TTL: per-category time-to-live in seconds. -/
def CACHE_TTL : List (List Nat × Nat) :=
  [(strCp ("default"), 300),
   (strCp ("chat"), 600),
   (strCp ("news"), 3600),
   (strCp ("market_analysis"), 1800),
   (strCp ("pattern"), 3600),
   (strCp ("portfolio"), 1200),
   (strCp ("scenario"), 1800)]

/-- The TTL for a category: CACHE_TTL.get(cache_type, CACHE_TTL["default"]). -/
def ttlFor (cacheType : List Nat) : Nat := (assocFind CACHE_TTL cacheType).getD 300

/-- Memory cache capacity MAX_MEMORY_CACHE_ITEMS. -/
def MAX_MEMORY_CACHE_ITEMS : Nat := 100

/-- Disk cache quota MAX_DISK_CACHE_SIZE_MB in bytes. -/
def maxDiskBytes : Nat := 100 * 1024 * 1024

/-- The in-memory cache key f-string cache_type:normalized_key. -/
def memKey (cacheType normalizedKey : List Nat) : List Nat :=
  cacheType ++ 58 :: normalizedKey

/-- min over dict keys by timestamp: the first entry (in insertion
order) with the minimal timestamp. -/
def oldestKey {α : Type} (m : Memory α) : List Nat :=
  match m with
  | [] => []
  | p :: ps =>
    (ps.foldl (fun best q => if q.2.timestamp < best.2.timestamp then q else best) p).1

/-- The effective TTL with the extended doubling (ttl *= 2). -/
def effectiveTtl (cacheType : List Nat) (extendedTtl : Bool) : ℚ :=
  (ttlFor cacheType : ℚ) * (if extendedTtl then 2 else 1)

/-- _is_cache_valid: the file age (now minus mtime) is within the
category TTL, doubled in extended mode. -/
def isCacheValid (now mtime : ℚ) (cacheType : List Nat) (extendedTtl : Bool) : Bool :=
  decide (now - mtime ≤ effectiveTtl cacheType extendedTtl)

/-- The disk-read half of _get_from_cache.  The source opens the file,
json-parses it, and then executes an unconditional return None inside
the with-block (deepseek_utils.py line 241), so the promotion of the
entry into MEMORY_CACHE and the return of the parsed payload
(lines 243-255) are unreachable; a parse failure lands in the except
handler with the same result.  Every branch therefore misses. -/
def getFromDisk {α : Type} (mem : Memory α) (disk : Disk α) (now : ℚ)
    (cacheKey cacheType : List Nat) (extendedTtl : Bool) : Option α × Memory α :=
  match assocFind disk (get_cache_path cacheKey cacheType) with
  | none => (none, mem)
  | some file =>
    if !(isCacheValid now file.mtime cacheType extendedTtl) then (none, mem)
    else
      match file.content with
      | none => (none, mem)
      | some _ => (none, mem)

/-- _get_from_cache: check the memory map first; a fresh memory entry is
a hit, a stale one is deleted; then fall through to the disk path. -/
def getFromCache {α : Type} (mem : Memory α) (disk : Disk α) (now : ℚ)
    (cacheKey cacheType : List Nat) (extendedTtl : Bool) : Option α × Memory α :=
  let normalizedKey := normalize_key cacheKey
  let mk := memKey cacheType normalizedKey
  match assocFind mem mk with
  | some entry =>
    if now - entry.timestamp ≤ effectiveTtl cacheType extendedTtl then
      (some entry.data, mem)
    else
      getFromDisk (assocErase mem mk) disk now cacheKey cacheType extendedTtl
  | none => getFromDisk mem disk now cacheKey cacheType extendedTtl

/-- Stable insertion into a list sorted oldest-first by mtime (models
list.sort with key age, reverse=True). -/
def insertByMtime {α : Type} (x : List (List Nat) × DiskFile α) :
    List (List (List Nat) × DiskFile α) → List (List (List Nat) × DiskFile α)
  | [] => [x]
  | y :: ys => if x.2.mtime < y.2.mtime then x :: y :: ys else y :: insertByMtime x ys

/-- Sort disk files oldest-first by mtime. -/
def sortOldestFirst {α : Type} (l : List (List (List Nat) × DiskFile α)) :
    List (List (List Nat) × DiskFile α) :=
  l.foldr insertByMtime []

/-- The paths the quota loop deletes: walk the oldest-first survivors,
stopping once the running total is within the limit. -/
def quotaDeleted {α : Type} (maxB : Nat) : Nat → List (List (List Nat) × DiskFile α) → List (List (List Nat))
  | _, [] => []
  | total, f :: fs =>
    if total ≤ maxB then []
    else f.1 :: quotaDeleted maxB (total - f.2.size) fs

/-- Whether a disk file has outlived the TTL of its top-level directory
(the source looks the directory name itself up in CACHE_TTL, falling
back to the default TTL). -/
def fileExpired {α : Type} (now : ℚ) (p : List (List Nat) × DiskFile α) : Bool :=
  decide ((ttlFor (p.1.headD []) : ℚ) < now - p.2.mtime)

/-- _clean_cache: with probability 5 percent (draw r), delete expired
files, then, when the total observed size exceeds the quota, delete
surviving files oldest-first until the running total is within it.  The
final recompression step rewrites file bytes without changing their
JSON content, so it is invisible in this content-level disk model. -/
def cleanCache {α : Type} (disk : Disk α) (now r : ℚ) : Disk α :=
  if r < (1 / 20 : ℚ) then
    let survivors := disk.filter (fun p => !(fileExpired now p))
    let total := (disk.map (fun p => p.2.size)).sum
    if maxDiskBytes < total then
      let deleted := quotaDeleted maxDiskBytes total (sortOldestFirst survivors)
      survivors.filter (fun p => !(deleted.contains p.1))
    else survivors
  else disk

/-- _save_to_cache: run the probabilistic janitor, refuse the None
payload, then write through to memory (evicting the oldest-by-timestamp
entry when over capacity) and to disk.  The serialized byte size of the
entry is supplied by the json collaborator. -/
def saveToCache {α : Type} (mem : Memory α) (disk : Disk α) (now r : ℚ)
    (cacheKey cacheType : List Nat) (dat : Option α) (size : Nat) :
    Bool × Memory α × Disk α :=
  let disk1 := cleanCache disk now r
  match dat with
  | none => (false, mem, disk1)
  | some v =>
    let normalizedKey := normalize_key cacheKey
    let mk := memKey cacheType normalizedKey
    let mem1 := assocInsert mem mk ⟨now, v⟩
    let mem2 :=
      if MAX_MEMORY_CACHE_ITEMS < mem1.length then assocErase mem1 (oldestKey mem1)
      else mem1
    let path := get_cache_path cacheKey cacheType
    let disk2 := assocInsert disk1 path ⟨now, size, some ⟨now, v⟩⟩
    (true, mem2, disk2)

/-! ## CostLedger and RequestGovernor: api_usage_tracker.py

Wall-clock instants (time.time() and the formatted datetime.now()
timestamps) are modelled as rationals, and the current date string
(datetime.now().strftime of the day) is passed explicitly as the
`today` key.  The disk flushes _save_usage_data / _save_market_status
only serialize state, so the state transition is modelled here and
their lock behaviour separately below. -/

/-- The adaptive throttling levels. -/
inductive Level where
  | normal
  | light
  | moderate
  | heavy
  | critical
deriving DecidableEq, Repr

/-- DEFAULT_THROTTLING_LEVELS: probability factor per level. -/
def throttleFactor : Level → ℚ
  | .normal => 1
  | .light => 1 / 2
  | .moderate => 3 / 10
  | .heavy => 1 / 10
  | .critical => 1 / 20

/-- DEFAULT_TOKEN_COST_PER_1K = 0.0002 dollars per thousand tokens. -/
def DEFAULT_TOKEN_COST_PER_1K : ℚ := 2 / 10000

/-- DEFAULT_DAILY_COST_LIMIT = 5 dollars per day. -/
def DEFAULT_DAILY_COST_LIMIT : ℚ := 5

/-- Static per-request-type configuration in ANALYSIS_CONFIG. -/
structure AnalysisConfig where
  avg_tokens : Nat
  importance : ℚ
  interval_minutes : Level → Nat

/-- ANALYSIS_CONFIG: the five known request types with their average
token estimates, importance weights and per-level minimum intervals in
minutes. -/
def ANALYSIS_CONFIG : List (List Nat × AnalysisConfig) :=
  [(strCp ("news_bias"),
    ⟨800, 8 / 10, fun l => match l with
      | .normal => 60 | .light => 120 | .moderate => 240 | .heavy => 480 | .critical => 720⟩),
   (strCp ("pattern_recognition"),
    ⟨1200, 7 / 10, fun l => match l with
      | .normal => 120 | .light => 240 | .moderate => 480 | .heavy => 720 | .critical => 1440⟩),
   (strCp ("portfolio_optimization"),
    ⟨2000, 6 / 10, fun l => match l with
      | .normal => 240 | .light => 480 | .moderate => 720 | .heavy => 1440 | .critical => 2880⟩),
   (strCp ("scenario_analysis"),
    ⟨3000, 5 / 10, fun l => match l with
      | .normal => 360 | .light => 720 | .moderate => 1440 | .heavy => 2880 | .critical => 4320⟩),
   (strCp ("chat"),
    ⟨1000, 9 / 10, fun l => match l with
      | .normal => 0 | .light => 0 | .moderate => 0 | .heavy => 2 | .critical => 5⟩)]

/-- Per-market counters inside a request-type bucket. -/
structure MarketStat where
  tokens : Nat
  count : Nat

/-- Per-request-type counters inside a day bucket. -/
structure TypeStat where
  tokens : Nat
  count : Nat
  markets : List (List Nat × MarketStat)

/-- One day bucket of usage_data["days"]. -/
structure DayBucket where
  total_tokens : Nat
  estimated_cost : ℚ
  requests_count : Nat
  by_type : List (List Nat × TypeStat)

/-- The fresh day bucket created on first write of a day. -/
def emptyDayBucket : DayBucket := ⟨0, 0, 0, []⟩

/-- The rolling usage_data["current_month"] aggregate. -/
structure MonthBucket where
  total_tokens : Nat
  estimated_cost : ℚ
  requests_count : Nat

/-- In-memory state of an APIUsageTracker instance together with the
usage_data structure it persists. -/
structure TrackerState where
  daily_cost_limit : ℚ
  current_throttling_level : Level
  active_markets : List (List Nat)
  last_requests : List (List Nat × ℚ)
  days : List (List Nat × DayBucket)
  current_month : MonthBucket
  throttling_level_persisted : Level
  throttling_last_updated : ℚ
  last_request_time : ℚ

/-- The level bands of _update_throttling_level as a function of the
daily cost and the daily limit. -/
def throttlingLevelFor (daily_cost daily_cost_limit : ℚ) : Level :=
  let percent_of_limit := daily_cost / daily_cost_limit * 100
  if percent_of_limit < 50 then .normal
  else if percent_of_limit < 75 then .light
  else if percent_of_limit < 90 then .moderate
  else if percent_of_limit < 100 then .heavy
  else .critical

/-- _update_throttling_level: recompute the level from today's cost
(missing day counts as zero) and, when it changed, update the live
level and the persisted throttling record. -/
def updateThrottlingLevel (s : TrackerState) (today : List Nat) (now : ℚ) : TrackerState :=
  let daily_cost := ((assocFind s.days today).map (fun b => b.estimated_cost)).getD 0
  let newLevel := throttlingLevelFor daily_cost s.daily_cost_limit
  if newLevel ≠ s.current_throttling_level then
    { s with current_throttling_level := newLevel,
             throttling_level_persisted := newLevel,
             throttling_last_updated := now }
  else s

/-- Python truthiness of the optional market string: None and the empty
string are falsy. -/
def truthyStr : Option (List Nat) → Bool
  | none => false
  | some l => !l.isEmpty

/-- APIUsageTracker.track_request: the state transition performed inside
the critical section (create today's bucket lazily, add tokens, cost
and counts at day, type and type-market granularity, bump the month
aggregate and the request timestamps, then recompute the throttling
level).  The trailing _save_usage_data flush serializes this state. -/
def track_request (s : TrackerState) (today : List Nat) (now : ℚ)
    (request_type : List Nat) (token_count : Nat) (market : Option (List Nat)) :
    TrackerState :=
  let bucket := (assocFind s.days today).getD emptyDayBucket
  let cost := (token_count : ℚ) / 1000 * DEFAULT_TOKEN_COST_PER_1K
  let bucket := { bucket with
    total_tokens := bucket.total_tokens + token_count,
    estimated_cost := bucket.estimated_cost + cost,
    requests_count := bucket.requests_count + 1 }
  let tstat := (assocFind bucket.by_type request_type).getD ⟨0, 0, []⟩
  let tstat := { tstat with tokens := tstat.tokens + token_count, count := tstat.count + 1 }
  let tstat :=
    match market with
    | some mk =>
      if mk.isEmpty then tstat
      else
        let ms := (assocFind tstat.markets mk).getD ⟨0, 0⟩
        { tstat with markets := assocInsert tstat.markets mk ⟨ms.tokens + token_count, ms.count + 1⟩ }
    | none => tstat
  let bucket := { bucket with by_type := assocInsert bucket.by_type request_type tstat }
  let s1 := { s with
    days := assocInsert s.days today bucket,
    current_month := ⟨s.current_month.total_tokens + token_count,
                      s.current_month.estimated_cost + cost,
                      s.current_month.requests_count + 1⟩,
    last_request_time := now,
    last_requests := assocInsert s.last_requests request_type now }
  updateThrottlingLevel s1 today now

/-- _check_request_interval: unknown request types always pass; a zero
interval for the current level passes; otherwise the elapsed minutes
since the last request of this type (epoch zero when none) must reach
the minimum. -/
def check_request_interval (s : TrackerState) (now : ℚ) (request_type : List Nat) : Bool :=
  match assocFind ANALYSIS_CONFIG request_type with
  | none => true
  | some cfg =>
    let minInterval := cfg.interval_minutes s.current_throttling_level
    if minInterval == 0 then true
    else
      let lastRequestTime := (assocFind s.last_requests request_type).getD 0
      decide ((minInterval : ℚ) ≤ (now - lastRequestTime) / 60)

/-- APIUsageTracker.should_execute_request with its (absent) state
effect made explicit: the decision path only reads the tracker state,
so every branch returns the state unchanged.  The value `r` is the
uniform random.random() draw of the inactive-market branch. -/
def should_execute_requestS (s : TrackerState) (now r : ℚ)
    (request_type : List Nat) (market : Option (List Nat)) : Bool × TrackerState :=
  if request_type == strCp ("chat") then
    (check_request_interval s now request_type, s)
  else
    match market with
    | some mk =>
      if !mk.isEmpty && !(s.active_markets.contains mk) then
        ((decide (r < throttleFactor s.current_throttling_level * (2 / 10)) &&
          check_request_interval s now request_type), s)
      else (check_request_interval s now request_type, s)
    | none => (check_request_interval s now request_type, s)

/-- The boolean decision of should_execute_request. -/
def should_execute_request (s : TrackerState) (now r : ℚ)
    (request_type : List Nat) (market : Option (List Nat)) : Bool :=
  (should_execute_requestS s now r request_type market).1

/-- The daily part of get_usage_report together with the throttling
snapshot. -/
structure UsageReport where
  daily_total_tokens : Nat
  daily_estimated_cost : ℚ
  daily_requests_count : Nat
  daily_percent_of_limit : ℚ
  monthly : MonthBucket
  throttling_current_level : Level
  throttling_last_updated : ℚ
  active_markets : List (List Nat)

/-- APIUsageTracker.get_usage_report. -/
def get_usage_report (s : TrackerState) (today : List Nat) : UsageReport :=
  let dailyCost := ((assocFind s.days today).map (fun b => b.estimated_cost)).getD 0
  { daily_total_tokens := ((assocFind s.days today).map (fun b => b.total_tokens)).getD 0,
    daily_estimated_cost := dailyCost,
    daily_requests_count := ((assocFind s.days today).map (fun b => b.requests_count)).getD 0,
    daily_percent_of_limit := dailyCost / s.daily_cost_limit * 100,
    monthly := s.current_month,
    throttling_current_level := s.current_throttling_level,
    throttling_last_updated := s.throttling_last_updated,
    active_markets := s.active_markets }

/-- APIUsageTracker.set_daily_cost_limit: the state transition inside
its critical section. -/
def set_daily_cost_limit (s : TrackerState) (today : List Nat) (now : ℚ) (limit : ℚ) :
    TrackerState :=
  updateThrottlingLevel { s with daily_cost_limit := limit } today now

/-- APIUsageTracker.update_active_markets: the active set is replaced
wholesale (set(markets), modelled as duplicate removal). -/
def update_active_markets (s : TrackerState) (markets : List (List Nat)) : TrackerState :=
  { s with active_markets := markets.dedup }

/-! ### Lock discipline of the mutating entry points

self.lock is a non-reentrant threading.Lock.  Each mutation's sequence
of acquire/release events on it is recorded in source order, and a
single-threaded execution of that sequence is interpreted: acquiring a
lock the thread already holds blocks forever. -/

/-- Spec-side throttle-level table, written from the specification
sentence percent lt 50 normal, lt 75 light, lt 90 moderate, lt 100
heavy, else critical, as a function of the percentage alone; compared
against the code-side throttlingLevelFor. -/
def specLevelOfPercent (percent : ℚ) : Level :=
  if percent < 50 then .normal
  else if percent < 75 then .light
  else if percent < 90 then .moderate
  else if percent < 100 then .heavy
  else .critical

/-- An event on the per-instance mutex. -/
inductive LockOp where
  | acq
  | rel
deriving DecidableEq, Repr

/-- Execute a sequence of lock events by one thread on one
non-reentrant mutex: some final-held-state when every event completes,
none when an event blocks forever (acquiring while already holding) or
is invalid (releasing while not holding). -/
def runLock : Bool → List LockOp → Option Bool
  | held, [] => some held
  | false, .acq :: rest => runLock true rest
  | true, .acq :: _ => none
  | true, .rel :: rest => runLock false rest
  | false, .rel :: _ => none

/-- Lock events of _save_usage_data: its own with-self.lock block. -/
def saveUsageDataLockOps : List LockOp := [.acq, .rel]

/-- Lock events of _save_market_status: its own with-self.lock block. -/
def saveMarketStatusLockOps : List LockOp := [.acq, .rel]

/-- Lock events of track_request: the outer with-self.lock block whose
body ends by calling _save_usage_data. -/
def trackRequestLockOps : List LockOp := .acq :: (saveUsageDataLockOps ++ [.rel])

/-- Lock events of set_daily_cost_limit: outer with-self.lock block
ending in _save_usage_data. -/
def setDailyCostLimitLockOps : List LockOp := .acq :: (saveUsageDataLockOps ++ [.rel])

/-- Lock events of update_active_markets: outer with-self.lock block
ending in _save_market_status. -/
def updateActiveMarketsLockOps : List LockOp := .acq :: (saveMarketStatusLockOps ++ [.rel])

/-! ### Concrete scenario states used by the closed theorems -/

/-- A day key for the concrete scenarios. -/
def dayKeyC : List Nat := strCp ("2025-06-01")

/-- Fresh tracker with the default 5-dollar daily limit and an empty
current-day bucket. -/
def sC2 : TrackerState := ⟨5, .normal, [], [], [], ⟨0, 0, 0⟩, .normal, 0, 0⟩

/-- The state after Record(news_bias, 12500 tokens, XAUUSD) on sC2. -/
def sC2after : TrackerState :=
  track_request sC2 dayKeyC 1000 (strCp ("news_bias")) 12500 (some (strCp ("XAUUSD")))

/-- Tracker with daily limit 100 and 80 dollars already accumulated
today, so that recording keeps the throttle level at moderate. -/
def sC3 : TrackerState :=
  ⟨100, .normal, [], [], [(dayKeyC, ⟨0, 80, 0, []⟩)], ⟨0, 0, 0⟩, .normal, 0, 0⟩

/-- The state after Record(pattern_recognition, 1200 tokens) on sC3 at
instant 0: level moderate, interval clock at 0. -/
def sC3after : TrackerState :=
  track_request sC3 dayKeyC 0 (strCp ("pattern_recognition")) 1200 none

/-- Fresh tracker at level normal with no active markets, for the
governor scenarios. -/
def sC6 : TrackerState := ⟨5, .normal, [], [], [], ⟨0, 0, 0⟩, .normal, 0, 0⟩

/-- A fresh, valid, parseable disk cache file written at instant 1000. -/
def c1File : DiskFile Nat := ⟨1000, 64, some ⟨1000, 42⟩⟩

/-- A disk store holding exactly that file under the path of key q in
category news. -/
def c1Disk : Disk Nat := [(get_cache_path (strCp ("q")) (strCp ("news")), c1File)]

/-! ## Theorems -/

/-- C10: every CostLedger mutation is claimed to complete its critical
section, but track_request, set_daily_cost_limit and
update_active_markets each call a flush helper that re-acquires the
same non-reentrant threading.Lock the mutator already holds, so the
lock-event trace of each mutation blocks forever (runLock returns
none); the flush's own trace in isolation completes, locating the
deadlock in the nesting. -/
theorem c10_mutations_deadlock_on_nested_lock :
  runLock false trackRequestLockOps = none ∧
  runLock false setDailyCostLimitLockOps = none ∧
  runLock false updateActiveMarketsLockOps = none ∧
  runLock false saveUsageDataLockOps = some false := by decide

set_option maxRecDepth 8000 in
/-- C1: the entry for (news, q) is absent from memory, the disk file
exists, parses and is age-valid (zero age against TTL 3600), yet
_get_from_cache returns a miss and leaves the memory map empty,
because of the unconditional return None after the json.load; the
claimed promotion and hit never happen. -/
theorem c1_valid_disk_entry_still_misses :
  isCacheValid 1000 c1File.mtime (strCp ("news")) false = true ∧
  c1File.content = some ⟨1000, 42⟩ ∧
  getFromCache ([] : Memory Nat) c1Disk 1000 (strCp ("q")) (strCp ("news")) false =
    (none, ([] : Memory Nat)) := by with_unfolding_all decide

/-- C4: the throttling level is a pure function of the percentage of
the daily limit with bands below 50, 75, 90 and 100, agreeing with the
spec-side table, and the five concrete costs against limit 100 land in
the five levels. -/
theorem c4_throttle_level_bands :
  (∀ daily_cost daily_cost_limit : ℚ,
      throttlingLevelFor daily_cost daily_cost_limit =
        specLevelOfPercent (daily_cost / daily_cost_limit * 100)) ∧
  throttlingLevelFor 40 100 = .normal ∧
  throttlingLevelFor 60 100 = .light ∧
  throttlingLevelFor 80 100 = .moderate ∧
  throttlingLevelFor 95 100 = .heavy ∧
  throttlingLevelFor 120 100 = .critical :=
  ⟨fun _ _ => rfl, by with_unfolding_all decide, by with_unfolding_all decide,
   by with_unfolding_all decide, by with_unfolding_all decide, by with_unfolding_all decide⟩

/-- C3 counterexample: at throttle level moderate, a
should_execute_request for pattern_recognition made 241 simulated
minutes after the recording of that type returns false, not true as
claimed: the moderate interval in ANALYSIS_CONFIG is 480 minutes, not
240. -/
theorem c3_counterexample_241_minutes :
  sC3after.current_throttling_level = .moderate ∧
  should_execute_request sC3after (241 * 60) 0 (strCp ("pattern_recognition")) none = false := by
  with_unfolding_all decide

/-- C3 amended: at level moderate the minimum interval for
pattern_recognition is 480 minutes; a call 60 simulated minutes after
the Record returns false and a call 481 minutes after it returns
true. -/
theorem c3_amended_interval_is_480 :
  sC3after.current_throttling_level = .moderate ∧
  ((assocFind ANALYSIS_CONFIG (strCp ("pattern_recognition"))).map
      (fun cfg => cfg.interval_minutes .moderate)) = some 480 ∧
  should_execute_request sC3after (60 * 60) 0 (strCp ("pattern_recognition")) none = false ∧
  should_execute_request sC3after (481 * 60) 0 (strCp ("pattern_recognition")) none = true := by
  with_unfolding_all decide

/-- C2 counterexample: with daily limit 5 and an empty current-day
bucket, Record(news_bias, 12500, XAUUSD) adds an estimated cost of
1/400 dollars (0.05 percent of the limit), not 2.5 (50 percent): the
level stays normal instead of moving to light and the report's daily
percent-of-limit is 1/20, not 50. -/
theorem c2_counterexample_cost_is_a_quarter_cent :
  ((assocFind sC2after.days dayKeyC).map (fun b => b.estimated_cost)) = some (1 / 400) ∧
  ((1 : ℚ) / 400) ≠ 5 / 2 ∧
  sC2after.current_throttling_level = .normal ∧
  Level.normal ≠ Level.light ∧
  (get_usage_report sC2after dayKeyC).daily_percent_of_limit = 1 / 20 ∧
  ((1 : ℚ) / 20) ≠ 50 := by with_unfolding_all decide

/-- C6 counterexample: the empty-string market is falsy in Python, so
should_execute_request never reaches the inactive-market penalty
branch for it: with an unknown type (interval passes), a draw of 9/10
and penalty probability 1/5, the claim demands false, but the call
returns true. -/
theorem c6_counterexample_empty_market_skips_penalty :
  should_execute_request sC6 0 (9 / 10) (strCp ("foo")) (some []) = true ∧
  ¬((9 : ℚ) / 10 < throttleFactor sC6.current_throttling_level * (2 / 10)) := by
  with_unfolding_all decide

/-- C7: the governor's decision path returns the tracker state
unchanged (so a skipped call never resets the interval clock), while
track_request sets the last-request entry of the recorded type to the
current instant; the other mutators never touch the map. -/
theorem c7_last_requests_updated_only_by_record :
  (∀ (s : TrackerState) (now r : ℚ) (t : List Nat) (m : Option (List Nat)),
      (should_execute_requestS s now r t m).2 = s) ∧
  (∀ (s : TrackerState) (today : List Nat) (now : ℚ) (t : List Nat) (tok : Nat)
      (m : Option (List Nat)),
      (track_request s today now t tok m).last_requests = assocInsert s.last_requests t now) ∧
  (∀ (s : TrackerState) (today : List Nat) (now lim : ℚ),
      (set_daily_cost_limit s today now lim).last_requests = s.last_requests) ∧
  (∀ (s : TrackerState) (mkts : List (List Nat)),
      (update_active_markets s mkts).last_requests = s.last_requests) := by
  refine ⟨?_, ?_, ?_, ?_⟩
  · intro s now r t m
    unfold should_execute_requestS
    split
    · rfl
    · rcases m with _ | mk
      · rfl
      · dsimp only
        split <;> rfl
  · intro s today now t tok m
    unfold track_request updateThrottlingLevel
    dsimp only
    split <;> rfl
  · intro s today now lim
    unfold set_daily_cost_limit updateThrottlingLevel
    dsimp only
    split <;> rfl
  · intro s mkts
    rfl

/-! ### Association-map lemmas shared by the general theorems -/

/-- Looking up the key just assigned returns the assigned value. -/
theorem assocFind_insert_self {β γ : Type} [BEq β] [LawfulBEq β]
    (m : List (β × γ)) (k : β) (v : γ) :
    assocFind (assocInsert m k v) k = some v := by
  unfold assocInsert
  split
  next hs =>
    induction m with
    | nil => simp at hs
    | cons p ps ih =>
      by_cases hp : (p.1 == k) = true
      · simp [assocFind, List.find?_cons_of_pos, hp]
      · have hs' : (ps.find? (fun q => q.1 == k)).isSome := by
          rw [List.find?_cons_of_neg _ (by simp [hp])] at hs
          exact hs
        have := ih hs'
        simpa [assocFind, List.find?_cons_of_neg, hp] using this
  next hs =>
    have hnone : m.find? (fun q => q.1 == k) = none := by
      cases hfind : m.find? (fun q => q.1 == k) with
      | none => rfl
      | some q => exact absurd (by simp [hfind]) hs
    simp [assocFind, List.find?_append, hnone]

/-- Erasing one key leaves lookups of a different key unchanged. -/
theorem assocFind_erase_of_ne {β γ : Type} [BEq β] [LawfulBEq β]
    (m : List (β × γ)) (j k : β) (h : k ≠ j) :
    assocFind (assocErase m j) k = assocFind m k := by
  unfold assocErase assocFind
  induction m with
  | nil => rfl
  | cons p ps ih =>
    by_cases hj : (p.1 == j) = true
    · have hk : (p.1 == k) = false := by
        have : p.1 = j := by simpa using hj
        simp [this, (by simpa using h.symm : ¬ j = k)]
      simp only [List.filter_cons, hj, Bool.not_true]
      simpa [List.find?_cons_of_neg, hk] using ih
    · by_cases hk : (p.1 == k) = true
      · simp [List.filter_cons, hj, List.find?_cons_of_pos, hk]
      · simp only [List.filter_cons, hj, Bool.not_false]
        simpa [List.find?_cons_of_neg, hk] using ih

/-- Assigning a present key keeps the map's length. -/
theorem assocInsert_length_present {β γ : Type} [BEq β]
    (m : List (β × γ)) (k : β) (v : γ) (h : (m.find? (fun p => p.1 == k)).isSome) :
    (assocInsert m k v).length = m.length := by
  unfold assocInsert
  rw [if_pos h, List.length_map]

/-- Assigning an absent key appends one binding. -/
theorem assocInsert_length_absent {β γ : Type} [BEq β]
    (m : List (β × γ)) (k : β) (v : γ) (h : ¬(m.find? (fun p => p.1 == k)).isSome) :
    (assocInsert m k v) = m ++ [(k, v)] := by
  unfold assocInsert
  rw [if_neg h]

/-! ### C2 and C6 amended -/

/-- updateThrottlingLevel leaves the day map unchanged. -/
theorem updateThrottlingLevel_days (s : TrackerState) (today : List Nat) (now : ℚ) :
    (updateThrottlingLevel s today now).days = s.days := by
  unfold updateThrottlingLevel
  dsimp only
  split <;> rfl

/-- updateThrottlingLevel leaves the daily limit unchanged. -/
theorem updateThrottlingLevel_limit (s : TrackerState) (today : List Nat) (now : ℚ) :
    (updateThrottlingLevel s today now).daily_cost_limit = s.daily_cost_limit := by
  unfold updateThrottlingLevel
  dsimp only
  split <;> rfl

/-- After updateThrottlingLevel the live level always equals the level
recomputed from today's cost, whether or not it changed. -/
theorem updateThrottlingLevel_level (s : TrackerState) (today : List Nat) (now : ℚ) :
    (updateThrottlingLevel s today now).current_throttling_level =
      throttlingLevelFor (((assocFind s.days today).map (fun b => b.estimated_cost)).getD 0)
        s.daily_cost_limit := by
  unfold updateThrottlingLevel
  dsimp only
  split
  · rfl
  · next h => exact (not_ne_iff.mp h).symm

/-- On a day with no bucket yet, track_request leaves exactly the cost
of this one request in the day's estimated-cost counter. -/
theorem track_request_day_cost (s : TrackerState) (today : List Nat) (now : ℚ)
    (t : List Nat) (tok : Nat) (m : Option (List Nat))
    (hday : assocFind s.days today = none) :
    ((assocFind (track_request s today now t tok m).days today).map
        (fun b => b.estimated_cost)) =
      some ((tok : ℚ) / 1000 * DEFAULT_TOKEN_COST_PER_1K) := by
  unfold track_request
  rw [updateThrottlingLevel_days]
  dsimp only
  rw [assocFind_insert_self, hday]
  simp [emptyDayBucket]

/-- track_request does not change the daily limit. -/
theorem track_request_limit (s : TrackerState) (today : List Nat) (now : ℚ)
    (t : List Nat) (tok : Nat) (m : Option (List Nat)) :
    (track_request s today now t tok m).daily_cost_limit = s.daily_cost_limit := by
  unfold track_request
  rw [updateThrottlingLevel_limit]

/-- On a day with no bucket yet, the level after track_request is the
one recomputed from this request's cost alone. -/
theorem track_request_level (s : TrackerState) (today : List Nat) (now : ℚ)
    (t : List Nat) (tok : Nat) (m : Option (List Nat))
    (hday : assocFind s.days today = none) :
    (track_request s today now t tok m).current_throttling_level =
      throttlingLevelFor ((tok : ℚ) / 1000 * DEFAULT_TOKEN_COST_PER_1K)
        s.daily_cost_limit := by
  unfold track_request
  rw [updateThrottlingLevel_level]
  dsimp only
  rw [assocFind_insert_self, hday]
  simp [emptyDayBucket]

/-- C2 amended: with daily limit 5 and an empty current-day bucket, a
single Record(news_bias, 12500, XAUUSD) adds an estimated cost of
1/400 dollars (0.05 percent of the limit), leaves the throttle level
at normal, and the usage report's daily percent-of-limit afterwards is
1/20 of one percent. -/
theorem c2_amended_record_adds_a_quarter_cent (s : TrackerState) (today : List Nat) (now : ℚ)
    (hlim : s.daily_cost_limit = 5)
    (hday : assocFind s.days today = none)
    (hlev : s.current_throttling_level = .normal) :
    ((assocFind (track_request s today now (strCp ("news_bias")) 12500
        (some (strCp ("XAUUSD")))).days today).map (fun b => b.estimated_cost)) = some (1 / 400) ∧
    (track_request s today now (strCp ("news_bias")) 12500
        (some (strCp ("XAUUSD")))).current_throttling_level = .normal ∧
    (get_usage_report (track_request s today now (strCp ("news_bias")) 12500
        (some (strCp ("XAUUSD")))) today).daily_percent_of_limit = 1 / 20 := by
  have hcast : ((12500 : ℕ) : ℚ) / 1000 * DEFAULT_TOKEN_COST_PER_1K = 1 / 400 := by
    unfold DEFAULT_TOKEN_COST_PER_1K
    norm_num
  refine ⟨?_, ?_, ?_⟩
  · rw [track_request_day_cost _ _ _ _ _ _ hday, hcast]
  · rw [track_request_level _ _ _ _ _ _ hday, hcast, hlim]
    unfold throttlingLevelFor
    norm_num
  · unfold get_usage_report
    dsimp only
    rw [track_request_day_cost _ _ _ _ _ _ hday, hcast, track_request_limit, hlim]
    norm_num

/-- Witness for c2_amended_record_adds_a_quarter_cent at the concrete
fresh tracker sC2. -/
theorem c2_amended_witness :
    sC2.daily_cost_limit = 5 ∧ assocFind sC2.days dayKeyC = none ∧
    sC2.current_throttling_level = .normal ∧
    (((assocFind (track_request sC2 dayKeyC 1000 (strCp ("news_bias")) 12500
        (some (strCp ("XAUUSD")))).days dayKeyC).map (fun b => b.estimated_cost)) = some (1 / 400) ∧
     (track_request sC2 dayKeyC 1000 (strCp ("news_bias")) 12500
        (some (strCp ("XAUUSD")))).current_throttling_level = .normal ∧
     (get_usage_report (track_request sC2 dayKeyC 1000 (strCp ("news_bias")) 12500
        (some (strCp ("XAUUSD")))) dayKeyC).daily_percent_of_limit = 1 / 20) :=
  ⟨rfl, rfl, rfl, c2_amended_record_adds_a_quarter_cent sC2 dayKeyC 1000 rfl rfl rfl⟩

/-- C6 amended: for a request type other than chat and a nonempty
market string not in the active set, the governor's decision is
exactly the conjunction of the random draw beating the penalty
probability (throttle factor times 0.2) and the interval rule; the
empty-string market is falsy in Python and is treated like an absent
market. -/
theorem c6_amended_inactive_market_penalty (s : TrackerState) (now r : ℚ)
    (t : List Nat) (mk : List Nat)
    (ht : t ≠ strCp ("chat")) (hmk : mk ≠ []) (hact : s.active_markets.contains mk = false) :
    should_execute_request s now r t (some mk) =
      (decide (r < throttleFactor s.current_throttling_level * (2 / 10)) &&
       check_request_interval s now t) := by
  unfold should_execute_request should_execute_requestS
  have ht' : (t == strCp ("chat")) = false := by simpa using ht
  have hmk' : mk.isEmpty = false := by simpa using hmk
  have hact' : mk ∉ s.active_markets := by simpa using hact
  simp [ht', hmk', hact']

/-- Witness for c6_amended_inactive_market_penalty on the fresh
tracker sC6 with an unknown type and a market outside the empty active
set. -/
theorem c6_amended_witness :
    strCp ("foo") ≠ strCp ("chat") ∧ strCp ("EURUSD") ≠ ([] : List Nat) ∧
    sC6.active_markets.contains (strCp ("EURUSD")) = false ∧
    should_execute_request sC6 0 (9 / 10) (strCp ("foo")) (some (strCp ("EURUSD"))) =
      (decide ((9 : ℚ) / 10 < throttleFactor sC6.current_throttling_level * (2 / 10)) &&
       check_request_interval sC6 0 (strCp ("foo"))) :=
  ⟨by decide, by decide, by decide,
   c6_amended_inactive_market_penalty sC6 0 (9 / 10) (strCp ("foo")) (strCp ("EURUSD"))
     (by decide) (by decide) (by decide)⟩

/-! ### C9: truncate_key length bound -/

/-- hexDigits always produces exactly the requested number of digits. -/
theorem hexDigits_length (k v : Nat) : (hexDigits k v).length = k := by
  induction k generalizing v with
  | zero => rfl
  | succ k ih => simp [hexDigits, ih]

/-- One compression step always yields the eight hash words. -/
theorem compressChunk_length {chunk hs : List Nat} : (compressChunk chunk hs).length = 8 := by
  unfold compressChunk
  rfl

/-- Processing chunks preserves the eight-word hash shape. -/
theorem processChunks_length (n : Nat) (bytes hs : List Nat) (h : hs.length = 8) :
    (processChunks n bytes hs).length = 8 := by
  induction n generalizing bytes hs with
  | zero => exact h
  | succ n ih => exact ih _ _ compressChunk_length

/-- SHA-256 always yields eight hash words. -/
theorem sha256Words_length (msg : List Nat) : (sha256Words msg).length = 8 := by
  unfold sha256Words
  exact processChunks_length _ _ _ rfl

/-- Flattening eight-hex-digit renderings of a word list gives eight
characters per word. -/
theorem flatten_hexDigits_length (ws : List Nat) :
    ((ws.map (hexDigits 8)).flatten).length = 8 * ws.length := by
  induction ws with
  | nil => rfl
  | cons w ws ih =>
    simp [List.flatten_cons, hexDigits_length, ih]
    ring

/-- A hexdigest always has 64 characters, like hashlib's. -/
theorem hexdigest_length (msg : List Nat) : (hexdigest msg).length = 64 := by
  unfold hexdigest
  rw [flatten_hexDigits_length, sha256Words_length]

set_option maxRecDepth 16000 in
/-- C9 counterexample: at maxLen 0 and the two-character key ab, the
truncate branch computes the slice bound 0 - 0 - 1 = -1, a Python
negative index that keeps 63 of the 64 digest characters, so the
result has 64 characters, violating the claimed bound for every
maxLen. -/
theorem c9_counterexample_maxlen_zero :
  (truncate_key (strCp ("ab")) 0).length = 64 ∧
  ¬((truncate_key (strCp ("ab")) 0).length ≤ 0) ∧
  truncate_key (strCp ("ab")) 0 =
    strCp ("_fb8e20fc2e4c3f248c60c39bd652f3c1347298bb977b8b4d5903b8505562060") := by
  with_unfolding_all decide

/-- C9 amended: for every key and every maxLen of at least 1, the
result of truncate_key has length at most maxLen, and truncate_key is
the identity whenever the key already fits (truncate_key is a pure
function, so determinism is inherent). -/
theorem c9_amended_length_bound (key : List Nat) (maxLength : Nat) (h : 1 ≤ maxLength) :
    (truncate_key key maxLength).length ≤ maxLength ∧
    (key.length ≤ maxLength → truncate_key key maxLength = key) := by
  constructor
  · unfold truncate_key
    split
    · next hle => exact hle
    · next hgt =>
      dsimp only
      have hd := hexdigest_length (utf8Encode (key.drop (maxLength / 2)))
      have hbound : (0 : ℤ) ≤ (maxLength : ℤ) - ((maxLength / 2 : ℕ) : ℤ) - 1 := by
        omega
      unfold pyTake
      rw [if_pos hbound]
      simp only [List.length_append, List.length_cons, List.length_take, hd]
      omega
  · intro h2
    unfold truncate_key
    rw [if_pos h2]

/-- Witness for c9_amended_length_bound at the three-character key abc
and the default budget 128. -/
theorem c9_amended_witness :
    1 ≤ 128 ∧
    ((truncate_key (strCp ("abc")) 128).length ≤ 128 ∧
     ((strCp ("abc")).length ≤ 128 → truncate_key (strCp ("abc")) 128 = strCp ("abc"))) :=
  ⟨by decide, c9_amended_length_bound (strCp ("abc")) 128 (by decide)⟩

/-! ### C5: put/get round trip -/

/-- Every per-category TTL is nonnegative. -/
theorem effectiveTtl_nonneg (cacheType : List Nat) (ext : Bool) :
    0 ≤ effectiveTtl cacheType ext := by
  unfold effectiveTtl
  apply mul_nonneg (Nat.cast_nonneg _)
  split <;> norm_num

/-- The running minimum of the oldest-entry fold is one of the
candidates. -/
theorem foldl_oldest_mem {α : Type} :
    ∀ (ps : Memory α) (p : List Nat × CacheEntry α),
      ps.foldl (fun best q => if q.2.timestamp < best.2.timestamp then q else best) p ∈ p :: ps
  | [], p => List.mem_cons_self p []
  | q :: qs, p => by
    rw [List.foldl_cons]
    by_cases hc : q.2.timestamp < p.2.timestamp
    · rw [if_pos hc]
      rcases List.mem_cons.mp (foldl_oldest_mem qs q) with h | h
      · rw [h]
        exact List.mem_cons_of_mem _ (List.mem_cons_self _ _)
      · exact List.mem_cons_of_mem _ (List.mem_cons_of_mem _ h)
    · rw [if_neg hc]
      rcases List.mem_cons.mp (foldl_oldest_mem qs p) with h | h
      · rw [h]
        exact List.mem_cons_self _ _
      · exact List.mem_cons_of_mem _ (List.mem_cons_of_mem _ h)

/-- When a strictly newest entry is appended, the oldest-by-timestamp
choice (with first-in-insertion-order tie break, as Python's min over
dict keys) is one of the pre-existing entries. -/
theorem oldestKey_append_newest {α : Type} (q : List Nat × CacheEntry α) (qs : Memory α)
    (mk : List Nat) (e : CacheEntry α)
    (hts : ∀ p ∈ q :: qs, p.2.timestamp ≤ e.timestamp) :
    ∃ p0 ∈ q :: qs, oldestKey ((q :: qs) ++ [(mk, e)]) = p0.1 := by
  have hb := foldl_oldest_mem (α := α) qs q
  refine ⟨_, hb, ?_⟩
  show oldestKey (q :: (qs ++ [(mk, e)])) = _
  unfold oldestKey
  dsimp only
  rw [List.foldl_append, List.foldl_cons, List.foldl_nil]
  rw [if_neg (not_lt.mpr (hts _ hb))]

/-- C5: immediately after a Put of a non-None payload, a Get of the
same key and category is a hit returning that payload and leaving the
promoted memory map unchanged.  The hypotheses are the cache's
operating invariants: no in-memory entry is newer than the clock and
the map respects its capacity bound. -/
theorem c5_put_get_roundtrip {α : Type} (mem : Memory α) (disk : Disk α) (now r : ℚ)
    (key cacheType : List Nat) (v : α) (size : Nat)
    (hts : ∀ p ∈ mem, p.2.timestamp ≤ now)
    (hlen : mem.length ≤ MAX_MEMORY_CACHE_ITEMS) :
    (saveToCache mem disk now r key cacheType (some v) size).1 = true ∧
    getFromCache (saveToCache mem disk now r key cacheType (some v) size).2.1
        (saveToCache mem disk now r key cacheType (some v) size).2.2
        now key cacheType false =
      (some v, (saveToCache mem disk now r key cacheType (some v) size).2.1) := by
  refine ⟨rfl, ?_⟩
  have hmem2eq : (saveToCache mem disk now r key cacheType (some v) size).2.1 =
      if MAX_MEMORY_CACHE_ITEMS <
          (assocInsert mem (memKey cacheType (normalize_key key))
            (⟨now, v⟩ : CacheEntry α)).length then
        assocErase (assocInsert mem (memKey cacheType (normalize_key key))
            (⟨now, v⟩ : CacheEntry α))
          (oldestKey (assocInsert mem (memKey cacheType (normalize_key key))
            (⟨now, v⟩ : CacheEntry α)))
      else assocInsert mem (memKey cacheType (normalize_key key)) (⟨now, v⟩ : CacheEntry α) :=
    rfl
  have hfind2 : assocFind (saveToCache mem disk now r key cacheType (some v) size).2.1
      (memKey cacheType (normalize_key key)) = some (⟨now, v⟩ : CacheEntry α) := by
    rw [hmem2eq]
    by_cases hp :
        (mem.find? (fun p => p.1 == memKey cacheType (normalize_key key))).isSome
    · have hl := assocInsert_length_present mem (memKey cacheType (normalize_key key))
        (⟨now, v⟩ : CacheEntry α) hp
      rw [if_neg (by simp only [MAX_MEMORY_CACHE_ITEMS] at hlen ⊢; omega)]
      exact assocFind_insert_self _ _ _
    · have happ := assocInsert_length_absent mem (memKey cacheType (normalize_key key))
        (⟨now, v⟩ : CacheEntry α) hp
      by_cases hev : MAX_MEMORY_CACHE_ITEMS <
          (assocInsert mem (memKey cacheType (normalize_key key))
            (⟨now, v⟩ : CacheEntry α)).length
      · rw [if_pos hev]
        rw [happ] at hev
        obtain ⟨q, qs, hqq⟩ : ∃ q qs, mem = q :: qs := by
          cases mem with
          | nil => simp [MAX_MEMORY_CACHE_ITEMS] at hev
          | cons q qs => exact ⟨q, qs, rfl⟩
        subst hqq
        have hmkabs : ∀ p ∈ q :: qs,
            (p.1 == memKey cacheType (normalize_key key)) = false := by
          intro p hpmem
          have := List.find?_eq_none.mp (Option.not_isSome_iff_eq_none.mp hp) p hpmem
          simpa using this
        obtain ⟨p0, hp0mem, hp0⟩ := oldestKey_append_newest q qs
          (memKey cacheType (normalize_key key)) (⟨now, v⟩ : CacheEntry α)
          (fun p hpm => hts p hpm)
        rw [happ, hp0]
        rw [assocFind_erase_of_ne _ _ _ (fun hcontra => by
          have := hmkabs p0 hp0mem
          simp [← hcontra] at this)]
        rw [← happ]
        exact assocFind_insert_self _ _ _
      · rw [if_neg hev]
        exact assocFind_insert_self _ _ _
  unfold getFromCache
  dsimp only
  rw [hfind2]
  dsimp only
  rw [sub_self, if_pos (effectiveTtl_nonneg cacheType false)]

/-- Witness for c5_put_get_roundtrip: Put then Get of payload 7 under
key k1 in category chat on initially empty caches at instant 0. -/
theorem c5_roundtrip_witness :
    (∀ p ∈ ([] : Memory Nat), p.2.timestamp ≤ (0 : ℚ)) ∧
    ([] : Memory Nat).length ≤ MAX_MEMORY_CACHE_ITEMS ∧
    ((saveToCache ([] : Memory Nat) ([] : Disk Nat) 0 1 (strCp ("k1")) (strCp ("chat"))
        (some 7) 10).1 = true ∧
     getFromCache (saveToCache ([] : Memory Nat) ([] : Disk Nat) 0 1 (strCp ("k1"))
          (strCp ("chat")) (some 7) 10).2.1
        (saveToCache ([] : Memory Nat) ([] : Disk Nat) 0 1 (strCp ("k1")) (strCp ("chat"))
          (some 7) 10).2.2
        0 (strCp ("k1")) (strCp ("chat")) false =
       (some 7, (saveToCache ([] : Memory Nat) ([] : Disk Nat) 0 1 (strCp ("k1"))
          (strCp ("chat")) (some 7) 10).2.1)) :=
  ⟨by simp, by decide,
   c5_put_get_roundtrip ([] : Memory Nat) ([] : Disk Nat) 0 1 (strCp ("k1")) (strCp ("chat"))
     7 10 (by simp) (by decide)⟩

/-! ### C8: normalize_key totality and idempotence

The output of normalize_key is characterised by four facts: every
character is a kept key character and not uppercase, no two adjacent
characters are both underscores, and neither end is an underscore.
Each pipeline stage is the identity on such strings. -/

/-- Lowercasing never yields an uppercase letter. -/
theorem lowerCp_not_upper (c : Nat) : isUpperCp (lowerCp c) = false := by
  unfold lowerCp
  split
  · next h =>
    simp only [isUpperCp, Bool.and_eq_true, decide_eq_true_eq] at h ⊢
    simp only [Bool.and_eq_false_iff, decide_eq_false_iff_not]
    omega
  · next h =>
    simpa using h

/-- Key characters are never whitespace. -/
theorem isKeyCp_not_space (c : Nat) (h : isKeyCp c = true) : isSpaceCp c = false := by
  simp only [isKeyCp, isWordCp, isSpaceCp, Bool.or_eq_true, Bool.and_eq_true,
    decide_eq_true_eq, beq_iff_eq, Bool.or_eq_false_iff, beq_eq_false_iff_ne, ne_eq] at h ⊢
  omega

/-- Characters surviving stripWhile come from the input. -/
theorem stripWhile_subset (p : Nat → Bool) (l : List Nat) :
    ∀ c ∈ stripWhile p l, c ∈ l := by
  intro c hc
  unfold stripWhile at hc
  rw [List.mem_reverse] at hc
  have h1 := (List.dropWhile_sublist (l := (l.dropWhile p).reverse) p).mem hc
  rw [List.mem_reverse] at h1
  exact (List.dropWhile_sublist p).mem h1

/-- Characters of a run-collapsed string come from the input or are
the replacement character. -/
theorem collapseAux_mem (p : Nat → Bool) (rep : Nat) :
    ∀ (b : Bool) (l : List Nat) (c : Nat), c ∈ collapseAux p rep b l → c ∈ l ∨ c = rep
  | b, [], c => by simp [collapseAux]
  | b, a :: l, c => by
    unfold collapseAux
    by_cases hp : p a = true
    · rw [if_pos hp]
      cases b with
      | true =>
        intro h
        rcases collapseAux_mem p rep true l c h with h | h
        · exact Or.inl (List.mem_cons_of_mem _ h)
        · exact Or.inr h
      | false =>
        intro h
        rcases List.mem_cons.mp h with h | h
        · exact Or.inr h
        · rcases collapseAux_mem p rep true l c h with h | h
          · exact Or.inl (List.mem_cons_of_mem _ h)
          · exact Or.inr h
    · rw [if_neg hp]
      intro h
      rcases List.mem_cons.mp h with h | h
      · exact Or.inl (h ▸ List.mem_cons_self _ _)
      · rcases collapseAux_mem p rep false l c h with h | h
        · exact Or.inl (List.mem_cons_of_mem _ h)
        · exact Or.inr h

/-- Every character of a normalized key is a kept key character and
not uppercase. -/
theorem normalize_key_chars (key : List Nat) :
    ∀ c ∈ normalize_key key, isKeyCp c = true ∧ isUpperCp c = false := by
  intro c hc
  unfold normalize_key at hc
  have hc1 := stripWhile_subset _ _ _ hc
  rcases collapseAux_mem _ _ _ _ _ hc1 with hc2 | h95
  · rcases collapseAux_mem _ _ _ _ _ hc2 with hc3 | h95
    · obtain ⟨a, ha, hac⟩ := List.mem_map.mp hc3
      by_cases hk : isKeyCp a = true
      · rw [if_pos hk] at hac
        subst hac
        refine ⟨hk, ?_⟩
        have ha2 := stripWhile_subset _ _ _ ha
        obtain ⟨d, _, hd⟩ := List.mem_map.mp ha2
        rw [← hd]
        exact lowerCp_not_upper d
      · rw [if_neg hk] at hac
        subst hac
        exact ⟨by decide, by decide⟩
    · subst h95
      exact ⟨by decide, by decide⟩
  · subst h95
    exact ⟨by decide, by decide⟩

/-- In the in-run state, the collapser never emits a run character
first. -/
theorem collapseAux_head (p : Nat → Bool) (rep : Nat) :
    ∀ l : List Nat, ∀ c ∈ (collapseAux p rep true l).head?, p c = false
  | [], c => by simp [collapseAux]
  | a :: l, c => by
    unfold collapseAux
    by_cases hp : p a = true
    · rw [if_pos hp]
      exact collapseAux_head p rep l c
    · rw [if_neg hp]
      intro h
      simp only [List.head?_cons, Option.mem_def, Option.some_inj] at h
      subst h
      simpa using hp

/-- The output of collapsing underscore runs has no two adjacent
underscores. -/
theorem collapseAux_chain95 :
    ∀ (l : List Nat) (b : Bool),
      (collapseAux (fun c => c == 95) 95 b l).Chain' (fun a b' => a ≠ 95 ∨ b' ≠ 95)
  | [], b => by simp [collapseAux]
  | a :: l, b => by
    unfold collapseAux
    by_cases hp : (a == 95) = true
    · rw [if_pos hp]
      cases b with
      | true => exact collapseAux_chain95 l true
      | false =>
        rw [if_neg (by simp)]
        rw [List.chain'_cons']
        refine ⟨?_, collapseAux_chain95 l true⟩
        intro y hy
        have := collapseAux_head (fun c => c == 95) 95 l y hy
        right
        simpa using this
    · rw [if_neg hp]
      rw [List.chain'_cons']
      refine ⟨?_, collapseAux_chain95 l false⟩
      intro y _
      left
      simpa using hp

/-- dropWhile preserves adjacent-pair chains. -/
theorem chain'_dropWhile {R : Nat → Nat → Prop} (q : Nat → Bool) :
    ∀ l : List Nat, l.Chain' R → (l.dropWhile q).Chain' R
  | [], h => h
  | a :: l, h => by
    rw [List.dropWhile_cons]
    split
    · exact chain'_dropWhile q l h.tail
    · exact h

/-- stripWhile preserves the no-adjacent-underscores chain. -/
theorem chain'_stripWhile (q : Nat → Bool) (l : List Nat)
    (h : l.Chain' (fun a b => a ≠ 95 ∨ b ≠ 95)) :
    (stripWhile q l).Chain' (fun a b => a ≠ 95 ∨ b ≠ 95) := by
  unfold stripWhile
  have h1 := chain'_dropWhile q l h
  have h2 : ((l.dropWhile q).reverse).Chain' (fun a b => a ≠ 95 ∨ b ≠ 95) :=
    List.chain'_reverse.mpr (List.Chain'.imp (fun a b hab => hab.symm) h1)
  have h3 := chain'_dropWhile q _ h2
  exact List.chain'_reverse.mpr (List.Chain'.imp (fun a b hab => hab.symm) h3)

/-- The head surviving dropWhile fails the predicate. -/
theorem head_dropWhile (q : Nat → Bool) :
    ∀ l : List Nat, ∀ c ∈ (l.dropWhile q).head?, q c = false
  | [], c => by simp
  | a :: l, c => by
    rw [List.dropWhile_cons]
    split
    · exact head_dropWhile q l c
    · next hq =>
      intro h
      simp only [List.head?_cons, Option.mem_def, Option.some_inj] at h
      subst h
      simpa using hq

/-- If the input's last character fails the predicate, so does the
last character after dropWhile. -/
theorem getLast_dropWhile (q : Nat → Bool) :
    ∀ l : List Nat, (∀ c ∈ l.getLast?, q c = false) →
      ∀ c ∈ (l.dropWhile q).getLast?, q c = false
  | [], h => h
  | a :: l, h => by
    rw [List.dropWhile_cons]
    split
    · cases l with
      | nil => simp
      | cons b l' =>
        refine getLast_dropWhile q (b :: l') ?_
        intro c hc
        exact h c (by simpa [List.getLast?_cons_cons] using hc)
    · exact h

/-- The first character of a stripped string fails the predicate. -/
theorem stripWhile_head (q : Nat → Bool) (l : List Nat) :
    ∀ c ∈ (stripWhile q l).head?, q c = false := by
  unfold stripWhile
  intro c hc
  rw [List.head?_reverse] at hc
  refine getLast_dropWhile q _ ?_ c hc
  intro d hd
  rw [List.getLast?_reverse] at hd
  exact head_dropWhile q _ d hd

/-- The last character of a stripped string fails the predicate. -/
theorem stripWhile_last (q : Nat → Bool) (l : List Nat) :
    ∀ c ∈ (stripWhile q l).getLast?, q c = false := by
  unfold stripWhile
  intro c hc
  rw [List.getLast?_reverse] at hc
  exact head_dropWhile q _ c hc

/-- Mapping a function that fixes every member is the identity. -/
theorem map_fixed {f : Nat → Nat} : ∀ l : List Nat, (∀ c ∈ l, f c = c) → l.map f = l
  | [], _ => rfl
  | a :: l, h => by
    rw [List.map_cons, h a (List.mem_cons_self _ _),
      map_fixed l (fun c hc => h c (List.mem_cons_of_mem _ hc))]

/-- dropWhile is the identity when the head fails the predicate. -/
theorem dropWhile_id_of_head (q : Nat → Bool) :
    ∀ l : List Nat, (∀ c ∈ l.head?, q c = false) → l.dropWhile q = l
  | [], _ => rfl
  | a :: l, h => by
    rw [List.dropWhile_cons, if_neg]
    simp [h a (by simp)]

/-- stripWhile is the identity when neither end satisfies the
predicate. -/
theorem stripWhile_id_of_ends (q : Nat → Bool) (l : List Nat)
    (hh : ∀ c ∈ l.head?, q c = false) (hl : ∀ c ∈ l.getLast?, q c = false) :
    stripWhile q l = l := by
  unfold stripWhile
  rw [dropWhile_id_of_head q l hh]
  rw [dropWhile_id_of_head q l.reverse (by simpa using hl)]
  exact List.reverse_reverse l

/-- Collapsing runs of a predicate no character satisfies is the
identity. -/
theorem collapseAux_id_of_none (q : Nat → Bool) (rep : Nat) :
    ∀ (l : List Nat) (b : Bool), (∀ c ∈ l, q c = false) → collapseAux q rep b l = l
  | [], b, _ => rfl
  | a :: l, b, h => by
    unfold collapseAux
    rw [if_neg (by simp [h a (List.mem_cons_self _ _)])]
    rw [collapseAux_id_of_none q rep l false (fun c hc => h c (List.mem_cons_of_mem _ hc))]

/-- Collapsing underscore runs is the identity on strings with no two
adjacent underscores. -/
theorem collapseAux_fix95 :
    ∀ l : List Nat, l.Chain' (fun a b => a ≠ 95 ∨ b ≠ 95) →
      collapseAux (fun c => c == 95) 95 false l = l ∧
      ((∀ c ∈ l.head?, c ≠ 95) → ∀ b, collapseAux (fun c => c == 95) 95 b l = l)
  | [], _ => ⟨rfl, fun _ b => by cases b <;> rfl⟩
  | a :: l, h => by
    have hl := collapseAux_fix95 l h.tail
    constructor
    · by_cases ha : a = 95
      · show collapseAux (fun c => c == 95) 95 false (a :: l) = a :: l
        unfold collapseAux
        rw [if_pos (by simp [ha])]
        have hhead : ∀ c ∈ l.head?, c ≠ 95 := by
          intro c hc
          have := (List.chain'_cons'.mp h).1 c hc
          rcases this with h1 | h1
          · exact absurd ha h1
          · exact h1
        rw [ha]
        exact congrArg (95 :: ·) (hl.2 hhead true)
      · show collapseAux (fun c => c == 95) 95 false (a :: l) = a :: l
        unfold collapseAux
        rw [if_neg (by simpa using ha)]
        exact congrArg (a :: ·) hl.1
    · intro hhead b
      have ha : a ≠ 95 := hhead a (by simp)
      show collapseAux (fun c => c == 95) 95 b (a :: l) = a :: l
      unfold collapseAux
      rw [if_neg (by simpa using ha)]
      exact congrArg (a :: ·) hl.1

/-- Every pipeline stage of normalize_key fixes a string already in
normal form. -/
theorem normalize_key_fixed (l : List Nat)
    (hchars : ∀ c ∈ l, isKeyCp c = true ∧ isUpperCp c = false)
    (hchain : l.Chain' (fun a b => a ≠ 95 ∨ b ≠ 95))
    (hhead : ∀ c ∈ l.head?, c ≠ 95) (hlast : ∀ c ∈ l.getLast?, c ≠ 95) :
    normalize_key l = l := by
  have hnospace : ∀ c ∈ l, isSpaceCp c = false :=
    fun c hc => isKeyCp_not_space c (hchars c hc).1
  have hmap : l.map lowerCp = l := by
    refine map_fixed l (fun c hc => ?_)
    unfold lowerCp
    rw [if_neg (by simp [(hchars c hc).2])]
  have hstrip1 : stripWhile isSpaceCp l = l := by
    refine stripWhile_id_of_ends isSpaceCp l ?_ ?_
    · intro c hc
      exact hnospace c (List.mem_of_mem_head? hc)
    · intro c hc
      exact hnospace c (List.mem_of_mem_getLast? hc)
  have hsub : subInvalid l = l := by
    refine map_fixed l (fun c hc => ?_)
    rw [if_pos (hchars c hc).1]
  have hcol1 : collapseRuns isSpaceCp 95 l = l :=
    collapseAux_id_of_none isSpaceCp 95 l false hnospace
  have hcol2 : collapseRuns (fun c => c == 95) 95 l = l :=
    (collapseAux_fix95 l hchain).1
  have hstrip2 : stripWhile (fun c => c == 95) l = l := by
    refine stripWhile_id_of_ends _ l ?_ ?_
    · intro c hc
      simpa using hhead c hc
    · intro c hc
      simpa using hlast c hc
  unfold normalize_key
  dsimp only
  rw [hmap, hstrip1, hsub, hcol1, hcol2, hstrip2]

/-- C8: normalize_key is total (a plain function of the codepoint
string, returning the empty result on the empty string and on strings
of only invalid characters, with no failure path in the embedding) and
idempotent: normalizing twice equals normalizing once, for every
string. -/
theorem c8_normalize_key_total_and_idempotent :
    normalize_key ([] : List Nat) = [] ∧
    normalize_key (strCp ("!!!")) = [] ∧
    ∀ key : List Nat, normalize_key (normalize_key key) = normalize_key key := by
  refine ⟨rfl, by decide, fun key => ?_⟩
  refine normalize_key_fixed _ (normalize_key_chars key) ?_ ?_ ?_
  · unfold normalize_key
    exact chain'_stripWhile _ _ (collapseAux_chain95 _ false)
  · intro c hc
    have := stripWhile_head (fun c => c == 95) _ c (by
      unfold normalize_key at hc
      exact hc)
    simpa using this
  · intro c hc
    have := stripWhile_last (fun c => c == 95) _ c (by
      unfold normalize_key at hc
      exact hc)
    simpa using this

end Spec2Proof
